import Mathlib

/-!
Verification of the classification-and-move engine of
`organizer_downloads_files.py` (advanced downloads organizer).

The Python source is embedded shallowly:

* `Stats` mirrors the mutable counter record returned by `make_stats`.
* `decStr` mirrors Python's decimal rendering of a natural number
  (as used by the f-string `f"{name} ({i}){ext}"` and `str(year)`).
* `normalize_ext` mirrors `normalize_ext(p) = p.lstrip(".").lower()`.
* `pyStem` / `pySuffix` mirror `pathlib.PurePath.stem` / `.suffix`.
* `ensure_dir`, `safe_move` mirror the mover, with filesystem effects made
  explicit (directory contents as a list of file names, failure injection
  booleans for `mkdir` and `shutil.move`, exceptions as `Except`).
* `build_rules`, `resolve_folder_for_ext`, the `organize_by_*` destination
  computations, `deep_scan_and_organize` (non-recursive walk) and
  `delete_empty_folders` are embedded over an explicit directory tree.
-/

/-- The counters dictionary produced by `make_stats` in the source. -/
structure Stats where
  scanned : Nat
  folders_created : Nat
  files_moved : Nat
  folders_deleted : Nat
  errors : Nat
deriving DecidableEq, Repr

/-- `make_stats()` : every counter starts at zero. -/
def make_stats : Stats :=
  { scanned := 0, folders_created := 0, files_moved := 0
    folders_deleted := 0, errors := 0 }

/-! ### Decimal rendering of naturals (Python `str(i)` / `f"{i}"`) -/

/-- Little helper: the decimal digits of `n` as characters, most significant
first; the first argument is fuel bounding the recursion depth (`n` itself is
always enough fuel since `n / 10 < n` for positive `n`). -/
def decStrAux : Nat → Nat → List Char
  | 0, _ => []
  | _ + 1, 0 => []
  | fuel + 1, n + 1 =>
      decStrAux fuel ((n + 1) / 10) ++ [Nat.digitChar ((n + 1) % 10)]

/-- Python's decimal rendering `str(n)` of a natural number. -/
def decStr (n : Nat) : String :=
  if n = 0 then "0" else String.mk (decStrAux n n)

/-- Value of a big-endian list of decimal digit characters. -/
def decDigitsVal (l : List Char) : Nat :=
  l.foldl (fun a c => a * 10 + (c.toNat - 48)) 0

theorem decStrAux_zero (fuel : Nat) : decStrAux fuel 0 = [] := by
  cases fuel <;> rfl

theorem decDigitsVal_append_singleton (l : List Char) (c : Char) :
    decDigitsVal (l ++ [c]) = decDigitsVal l * 10 + (c.toNat - 48) := by
  simp [decDigitsVal, List.foldl_append]

theorem digitChar_val (d : Nat) (hd : d < 10) :
    (Nat.digitChar d).toNat - 48 = d := by
  interval_cases d <;> rfl

theorem decDigitsVal_decStrAux :
    ∀ n fuel, n ≤ fuel → decDigitsVal (decStrAux fuel n) = n := by
  intro n
  induction n using Nat.strong_induction_on with
  | _ n ih =>
    intro fuel hfuel
    match n, fuel with
    | 0, fuel => rw [decStrAux_zero]; rfl
    | n + 1, fuel + 1 =>
      have hdiv : (n + 1) / 10 < n + 1 := Nat.div_lt_self (Nat.succ_pos n) (by norm_num)
      have hdivle : (n + 1) / 10 ≤ fuel := by omega
      rw [decStrAux, decDigitsVal_append_singleton, ih _ hdiv _ hdivle,
        digitChar_val _ (Nat.mod_lt _ (by norm_num))]
      omega

theorem decStr_injective : Function.Injective decStr := by
  intro a b h
  by_cases ha : a = 0 <;> by_cases hb : b = 0
  · omega
  · exfalso
    rw [decStr, decStr, if_pos ha, if_neg hb] at h
    have hdata : ['0'] = decStrAux b b := congrArg String.data h
    have := decDigitsVal_decStrAux b b le_rfl
    rw [← hdata] at this
    simp [decDigitsVal] at this
    omega
  · exfalso
    rw [decStr, decStr, if_neg ha, if_pos hb] at h
    have hdata : decStrAux a a = ['0'] := congrArg String.data h
    have := decDigitsVal_decStrAux a a le_rfl
    rw [hdata] at this
    simp [decDigitsVal] at this
    omega
  · rw [decStr, decStr, if_neg ha, if_neg hb] at h
    have hdata : decStrAux a a = decStrAux b b := congrArg String.data h
    have h1 := decDigitsVal_decStrAux a a le_rfl
    have h2 := decDigitsVal_decStrAux b b le_rfl
    rw [hdata] at h1
    omega

/-! ### Extension normalization (`normalize_ext`) -/

/-- Python `str.lower` restricted to one character (ASCII case fold, which is
what every extension string in this program needs). -/
def pyCharLower (c : Char) : Char :=
  if 65 ≤ c.toNat ∧ c.toNat ≤ 90 then Char.ofNat (c.toNat + 32) else c

/-- Python `str.lower` on a whole string. -/
def pyLower (s : String) : String :=
  String.mk (s.data.map pyCharLower)

/-- Python `s.lstrip(".")` : drop every leading dot. -/
def lstripDots (s : String) : String :=
  String.mk (s.data.dropWhile (fun c => c = '.'))

/-- `normalize_ext(p)` from the source: `p.lstrip(".").lower()`. -/
def normalize_ext (p : String) : String :=
  pyLower (lstripDots p)

/-! ### `pathlib` name splitting (`Path.stem` / `Path.suffix`) -/

/-- Index of the last `'.'` in a character list (CPython `str.rfind(".")`),
`none` when there is no dot. -/
def lastDotIdx (l : List Char) : Option Nat :=
  match l.reverse.findIdx? (fun c => c = '.') with
  | some j => some (l.length - 1 - j)
  | none => none

/-- `pathlib.PurePath.suffix` of a plain file name: the part from the last
dot on, unless the dot is the first or the last character. -/
def pySuffix (name : String) : String :=
  match lastDotIdx name.data with
  | some i =>
      if 0 < i ∧ i < name.data.length - 1 then String.mk (name.data.drop i)
      else ""
  | none => ""

/-- `pathlib.PurePath.stem` of a plain file name: the name with its suffix
removed. -/
def pyStem (name : String) : String :=
  match lastDotIdx name.data with
  | some i =>
      if 0 < i ∧ i < name.data.length - 1 then String.mk (name.data.take i)
      else name
  | none => name

theorem pyStem_append_pySuffix (name : String) :
    pyStem name ++ pySuffix name = name := by
  rw [pyStem, pySuffix]
  match h : lastDotIdx name.data with
  | some i =>
      by_cases hc : 0 < i ∧ i < name.length - 1
      · apply String.ext
        simp [hc, String.data_append]
      · apply String.ext
        simp [hc, String.data_append]
  | none =>
      apply String.ext
      simp [String.data_append]

/-! ### Collision renaming (`safe_move` auto-rename loop) -/

/-- Candidate name tried by the auto-rename loop: `f"{name} ({i}){ext}"`. -/
def candName (stem ext : String) (i : Nat) : String :=
  stem ++ " (" ++ decStr i ++ ")" ++ ext

theorem candName_inj (stem ext : String) {i j : Nat}
    (h : candName stem ext i = candName stem ext j) : i = j := by
  have hdata := congrArg String.data h
  simp only [candName, String.data_append, List.append_assoc] at hdata
  have h1 := List.append_cancel_left hdata
  have h2 := List.append_cancel_left h1
  have h3 : (decStr i).data = (decStr j).data := List.append_cancel_right h2
  exact decStr_injective (String.ext h3)

theorem exists_cand_notMem (files : List String) (stem ext : String) :
    ∃ i, candName stem ext (i + 1) ∉ files := by
  by_contra hall
  push_neg at hall
  have hinj : Function.Injective (fun i : Nat => candName stem ext (i + 1)) := by
    intro i j hij
    have := candName_inj stem ext hij
    omega
  have hsub : (Finset.range (files.length + 1)).image
      (fun i => candName stem ext (i + 1)) ⊆ files.toFinset := by
    intro x hx
    rcases Finset.mem_image.1 hx with ⟨i, _, rfl⟩
    exact List.mem_toFinset.2 (hall i)
  have hcard := Finset.card_le_card hsub
  rw [Finset.card_image_of_injective _ hinj, Finset.card_range] at hcard
  have := List.toFinset_card_le files
  omega

/-- In the source, the rename loop `i = 1; while True: ... i += 1` runs until
`dest_dir / f"{name} ({i}){ext}"` does not exist.  `freeIdx` is the index the
loop stops at: the smallest positive `i` whose candidate is not among the
files already present. -/
def freeIdx (files : List String) (stem ext : String) : Nat :=
  Nat.find (exists_cand_notMem files stem ext) + 1

theorem freeIdx_pos (files : List String) (stem ext : String) :
    0 < freeIdx files stem ext := Nat.succ_pos _

theorem candName_freeIdx_notMem (files : List String) (stem ext : String) :
    candName stem ext (freeIdx files stem ext) ∉ files :=
  Nat.find_spec (exists_cand_notMem files stem ext)

theorem freeIdx_min (files : List String) (stem ext : String) :
    ∀ m, 0 < m → m < freeIdx files stem ext → candName stem ext m ∈ files := by
  intro m hm hlt
  rcases Nat.exists_eq_add_of_lt hm with ⟨k, hk⟩
  have hk' : m = k + 1 := by omega
  subst hk'
  have : k < Nat.find (exists_cand_notMem files stem ext) := by
    unfold freeIdx at hlt; omega
  have := Nat.find_min (exists_cand_notMem files stem ext) this
  exact not_not.1 this

/-- The name under which `safe_move` lands a file whose stem/suffix are
`stem`/`ext` in a directory currently holding `contents`: the original name
when it is free, the first free ` (N)` candidate otherwise. -/
def chooseName (contents : List String) (stem ext : String) : String :=
  if (stem ++ ext) ∈ contents then candName stem ext (freeIdx contents stem ext)
  else stem ++ ext

theorem chooseName_notMem (contents : List String) (stem ext : String) :
    chooseName contents stem ext ∉ contents := by
  rw [chooseName]
  by_cases h : (stem ++ ext) ∈ contents
  · rw [if_pos h]; exact candName_freeIdx_notMem contents stem ext
  · rw [if_neg h]; exact h

/-! ### `ensure_dir` and `safe_move` over an abstract destination directory

The destination directory is abstracted to whether it exists (`dirExists`),
its current file names (`destFiles`), and failure-injection flags for the two
filesystem calls that can raise: `p.mkdir(...)` (`mkdirOk`) and
`shutil.move(...)` (`moveOk`).  A raised exception is `Except.error` carrying
the stats as mutated so far. -/

/-- `ensure_dir(p, stats)` : create the directory (counting it) when missing;
a failing `mkdir` raises before the counter is touched. -/
def ensure_dir (dirExists mkdirOk : Bool) (stats : Stats) : Except Stats Stats :=
  if dirExists then .ok stats
  else if mkdirOk then
    .ok { stats with folders_created := stats.folders_created + 1 }
  else .error stats

/-- `safe_move(src, dest_dir, stats)` : ensure the directory, count the file
as scanned, then move it under `chooseName`, where a failing move raises
after `errors` is incremented.  Returns the landed name, the new directory
contents and the final stats.  A directory that did not exist is empty right
after creation, hence `contents := []` in that case. -/
def safe_move (stem ext : String) (dirExists mkdirOk moveOk : Bool)
    (destFiles : List String) (stats : Stats) :
    Except Stats (String × List String × Stats) :=
  match ensure_dir dirExists mkdirOk stats with
  | .error s => .error s
  | .ok s1 =>
      let contents := if dirExists then destFiles else []
      let s2 := { s1 with scanned := s1.scanned + 1 }
      let newName := chooseName contents stem ext
      if moveOk then
        .ok (newName, newName :: contents,
          { s2 with files_moved := s2.files_moved + 1 })
      else .error { s2 with errors := s2.errors + 1 }

/-! ### Rule building and resolving -/

/-- `DEFAULT_RULES` from the source, in its literal (insertion) order. -/
def DEFAULT_RULES : List (String × List String) :=
  [("Images", ["jpg", "jpeg", "png", "gif", "bmp", "svg", "webp", "heic"]),
   ("Videos", ["mp4", "mkv", "mov", "avi", "webm"]),
   ("Audio", ["mp3", "wav", "flac", "aac", "m4a"]),
   ("Documents", ["pdf", "doc", "docx", "xls", "xlsx", "ppt", "pptx", "txt", "rtf"]),
   ("Archives", ["zip", "rar", "7z", "tar", "gz", "bz2"]),
   ("Code", ["js", "jsx", "ts", "tsx", "py", "java", "c", "cpp", "html", "css", "json"]),
   ("Installers", ["exe", "msi", "deb", "rpm"]),
   ("Others", [])]

/-- `build_rules(custom_rules)` : custom entries first in caller order with
extensions normalized, then every default category whose name is not a key of
the custom mapping.  A Python dict is embedded as an association list (its
keys are pairwise distinct; theorems that need this take it as a
hypothesis). -/
def build_rules (custom_rules : List (String × List String)) :
    List (String × List String) :=
  custom_rules.map (fun kv => (kv.1, kv.2.map normalize_ext)) ++
    (DEFAULT_RULES.filter
        (fun kv => !(custom_rules.any (fun c => c.1 == kv.1)))).map
      (fun kv => (kv.1, kv.2.map normalize_ext))

/-- `resolve_folder_for_ext(ext, ordered_rules)` : category of the first
entry whose extension list contains `ext`, else `"Others"`. -/
def resolve_folder_for_ext (ext : String) :
    List (String × List String) → String
  | [] => "Others"
  | (folder, exts) :: rest =>
      if ext ∈ exts then folder else resolve_folder_for_ext ext rest

/-! ### Move planner (`organize_by_*` destination computation)

A filesystem path is embedded as its list of components; the file's
last-modified timestamp is embedded as the calendar year and month
(1-12) that `datetime.fromtimestamp` extracts from it. -/

/-- Calendar year/month of a file's `st_mtime`. -/
structure MTime where
  year : Nat
  month : Nat
deriving DecidableEq, Repr

/-- `strftime("%b")` (C locale): three-letter English month abbreviation. -/
def monthAbbr : Nat → String
  | 1 => "Jan" | 2 => "Feb" | 3 => "Mar" | 4 => "Apr"
  | 5 => "May" | 6 => "Jun" | 7 => "Jul" | 8 => "Aug"
  | 9 => "Sep" | 10 => "Oct" | 11 => "Nov" | 12 => "Dec"
  | _ => ""

/-- `month_name_from_ts(ts)` from the source. -/
def month_name_from_ts (mt : MTime) : String := monthAbbr mt.month

/-- Destination directory computed by `organize_by_type_then_date` :
`target / folder / year / month`, where `folder` classifies the file's
normalized suffix. -/
def organize_by_type_then_date_dest (suffix : String) (target : List String)
    (mt : MTime) (ordered_rules : List (String × List String)) : List String :=
  target ++ [resolve_folder_for_ext (normalize_ext suffix) ordered_rules,
    decStr mt.year, month_name_from_ts mt]

/-- Destination directory computed by `organize_by_date_then_type` :
`target / year / month / folder`. -/
def organize_by_date_then_type_dest (suffix : String) (target : List String)
    (mt : MTime) (ordered_rules : List (String × List String)) : List String :=
  target ++ [decStr mt.year, month_name_from_ts mt,
    resolve_folder_for_ext (normalize_ext suffix) ordered_rules]

/-- Destination directory computed by `organize_flat_type` :
`target / folder`. -/
def organize_flat_type_dest (suffix : String) (target : List String)
    (ordered_rules : List (String × List String)) : List String :=
  target ++ [resolve_folder_for_ext (normalize_ext suffix) ordered_rules]

/-! ### Directory trees

A concrete filesystem for the scanner, the reaper and `mkdir(parents=True)`:
a directory holds a list of files and an association list of named
subdirectories.  (`DirList` is a mutual inductive rather than
`List (String × Dir)` so that structural recursion and induction stay
elementary.) -/

/-- A regular file: its name and its last-modified time. -/
structure FileEnt where
  name : String
  mt : MTime
deriving DecidableEq, Repr

mutual
inductive Dir : Type where
  | node : List FileEnt → DirList → Dir
deriving Repr
inductive DirList : Type where
  | nil : DirList
  | cons : String → Dir → DirList → DirList
deriving Repr
end

/-- Files directly inside a directory. -/
def Dir.files : Dir → List FileEnt
  | .node fs _ => fs

/-- Immediate subdirectories of a directory. -/
def Dir.dirs : Dir → DirList
  | .node _ ds => ds

/-- Look up an immediate subdirectory by name. -/
def findChild : DirList → String → Option Dir
  | .nil, _ => none
  | .cons n c rest, k => if n = k then some c else findChild rest k

/-- Replace the subdirectory named `k` (no-op when absent). -/
def setChild : DirList → String → Dir → DirList
  | .nil, _, _ => .nil
  | .cons n c rest, k, t =>
      if n = k then .cons n t rest else .cons n c (setChild rest k t)

/-- Does the directory at `path` exist (`p.exists()`)? -/
def dirExistsAt : Dir → List String → Bool
  | _, [] => true
  | t, n :: rest =>
      match findChild t.dirs n with
      | some c => dirExistsAt c rest
      | none => false

/-- `p.mkdir(parents=True, exist_ok=True)` : create every missing directory
along `path`; also returns how many directories were actually created. -/
def mkdirp : Dir → List String → Dir × Nat
  | t, [] => (t, 0)
  | .node fs ds, n :: rest =>
      match findChild ds n with
      | some c =>
          let r := mkdirp c rest
          (.node fs (setChild ds n r.1), r.2)
      | none =>
          let r := mkdirp (.node [] .nil) rest
          (.node fs (.cons n r.1 ds), r.2 + 1)

/-- Files of the directory at `path` (empty when the path is missing). -/
def filesAt : Dir → List String → List FileEnt
  | t, [] => t.files
  | t, n :: rest =>
      match findChild t.dirs n with
      | some c => filesAt c rest
      | none => []

/-- Drop a file into the directory at `path`, creating directories along the
way when missing. -/
def addFileAt : Dir → List String → FileEnt → Dir
  | .node fs ds, [], f => .node (fs ++ [f]) ds
  | .node fs ds, n :: rest, f =>
      match findChild ds n with
      | some c => .node fs (setChild ds n (addFileAt c rest f))
      | none => .node fs (.cons n (addFileAt (.node [] .nil) rest f) ds)

/-- `ensure_dir(p, stats)` over the concrete tree: counts one created
destination path even when `parents=True` materializes several missing
ancestors. -/
def ensure_dir_fs (t : Dir) (path : List String) (stats : Stats) :
    Dir × Stats :=
  if dirExistsAt t path then (t, stats)
  else ((mkdirp t path).1,
    { stats with folders_created := stats.folders_created + 1 })

/-- `safe_move` over the concrete tree (the no-failure runs of the batch
scanner): ensure the destination directory, count the file scanned, land it
under `chooseName` and count it moved. -/
def safe_move_fs (t : Dir) (dest : List String) (f : FileEnt)
    (stats : Stats) : Dir × Stats :=
  let r1 := ensure_dir_fs t dest stats
  let s2 := { r1.2 with scanned := r1.2.scanned + 1 }
  let contents := (filesAt r1.1 dest).map FileEnt.name
  let newName := chooseName contents (pyStem f.name) (pySuffix f.name)
  (addFileAt r1.1 dest { f with name := newName },
    { s2 with files_moved := s2.files_moved + 1 })

/-! ### Batch scanner (`deep_scan_and_organize`, `recursive=False`) and
reaper (`delete_empty_folders`) -/

/-- The `method` configuration string: `"type_date"`, `"date_type"`, or
anything else (the source's `else` branch, configured as `"type"`). -/
inductive Method : Type where
  | type_date : Method
  | date_type : Method
  | flat_type : Method
deriving DecidableEq, Repr

/-- Destination directory of one file relative to the target root, as the
three `organize_by_*` functions compute it. -/
def destRel (method : Method) (f : FileEnt)
    (ordered_rules : List (String × List String)) : List String :=
  match method with
  | .type_date => organize_by_type_then_date_dest (pySuffix f.name) [] f.mt ordered_rules
  | .date_type => organize_by_date_then_type_dest (pySuffix f.name) [] f.mt ordered_rules
  | .flat_type => organize_flat_type_dest (pySuffix f.name) [] ordered_rules

/-- The `for f in files` loop body of `deep_scan_and_organize`, over the
snapshot list of files found at the root level. -/
def processFiles (ordered_rules : List (String × List String))
    (method : Method) : List FileEnt → Dir → Stats → Dir × Stats
  | [], t, s => (t, s)
  | f :: fs, t, s =>
      let r := safe_move_fs t (destRel method f ordered_rules) f s
      processFiles ordered_rules method fs r.1 r.2

/-- Is a directory empty (`not any(full.iterdir())`)? -/
def isEmptyDir : Dir → Bool
  | .node fs ds =>
      fs.isEmpty && (match ds with | .nil => true | .cons _ _ _ => false)

mutual
/-- `delete_empty_folders(path, stats)` on the subtree rooted at one
directory: `os.walk(..., topdown=False)` yields children before parents, so
each child subtree is reaped first, and a child found empty afterwards is
removed (`rmdir`) and counted.  Returns the surviving directory and the
number of directories removed strictly below it. -/
def reapDir : Dir → Dir × Nat
  | .node fs ds =>
      let r := reapDirs ds
      (.node fs r.1, r.2)
/-- Bottom-up reap of a sibling list (the `for d in dirs` loop). -/
def reapDirs : DirList → DirList × Nat
  | .nil => (.nil, 0)
  | .cons n c rest =>
      let rc := reapDir c
      let rr := reapDirs rest
      if isEmptyDir rc.1 then (rr.1, rc.2 + rr.2 + 1)
      else (.cons n rc.1 rr.1, rc.2 + rr.2)
end

/-- `delete_empty_folders(path, stats)` : reap and add the number of removed
directories to `folders_deleted`. -/
def delete_empty_folders (t : Dir) (stats : Stats) : Dir × Stats :=
  let r := reapDir t
  (r.1, { stats with folders_deleted := stats.folders_deleted + r.2 })

mutual
/-- Number of directories strictly below this one. -/
def Dir.countDirs : Dir → Nat
  | .node _ ds => ds.countDirs
def DirList.countDirs : DirList → Nat
  | .nil => 0
  | .cons _ c rest => 1 + c.countDirs + rest.countDirs
end

mutual
/-- Does the whole subtree contain no file at all? -/
def Dir.noFiles : Dir → Bool
  | .node fs ds => fs.isEmpty && ds.noFiles
def DirList.noFiles : DirList → Bool
  | .nil => true
  | .cons _ c rest => c.noFiles && rest.noFiles
end

/-- `deep_scan_and_organize(target, method, recursive=False, delete_empty,
cfg_rules, stats)` : build the rule table, move every file found at the
root's immediate level (the walk `break`s after its first iteration, and the
first iteration's `rel_root` has no parts, so the category-skip test never
fires), then optionally reap empty directories. -/
def deep_scan_and_organize (t : Dir) (method : Method) (delete_empty : Bool)
    (cfg_rules : List (String × List String)) (stats : Stats) : Dir × Stats :=
  let ordered_rules := build_rules cfg_rules
  match t with
  | .node fs ds =>
      let r := processFiles ordered_rules method fs (.node [] ds) stats
      if delete_empty then delete_empty_folders r.1 r.2 else r

/-! ### Sequences of stats-mutating operations (for the stats invariant) -/

/-- One operation of a run that touches the shared `stats` dictionary:
a `safe_move` (with its abstract directory and failure flags), a bare
`ensure_dir`, or a `delete_empty_folders` pass. -/
inductive EngineOp : Type where
  | move : String → String → Bool → Bool → Bool → List String → EngineOp
  | ensure : Bool → Bool → EngineOp
  | reap : Dir → EngineOp

/-- The stats after one operation, whether it returned or raised. -/
def applyOp : EngineOp → Stats → Stats
  | .move stem ext de mk mv fs, s =>
      match safe_move stem ext de mk mv fs s with
      | .ok r => r.2.2
      | .error s2 => s2
  | .ensure de mk, s =>
      match ensure_dir de mk s with
      | .ok s2 => s2
      | .error s2 => s2
  | .reap t, s => (delete_empty_folders t s).2

/-- Run a sequence of operations over the shared stats. -/
def runOps : List EngineOp → Stats → Stats
  | [], s => s
  | op :: ops, s => runOps ops (applyOp op s)

/-- Pointwise order on the five counters. -/
def statsLE (a b : Stats) : Prop :=
  a.scanned ≤ b.scanned ∧ a.folders_created ≤ b.folders_created ∧
  a.files_moved ≤ b.files_moved ∧ a.folders_deleted ≤ b.folders_deleted ∧
  a.errors ≤ b.errors

/-! ### C1 : the extension classifier -/

/-- C1 (first-match and fallback behaviour of `resolve_folder_for_ext`):
the classifier returns the category of the first entry whose extension list
contains the extension — so of an entry containing it that no earlier entry
shadows — and returns `"Others"` when no entry's list contains it. -/
theorem resolve_folder_first_match (ordered_rules : List (String × List String))
    (ext : String) :
    (∀ pre folder exts post,
        ordered_rules = pre ++ (folder, exts) :: post →
        ext ∈ exts →
        (∀ e ∈ pre, ext ∉ e.2) →
        resolve_folder_for_ext ext ordered_rules = folder)
    ∧ ((∀ e ∈ ordered_rules, ext ∉ e.2) →
        resolve_folder_for_ext ext ordered_rules = "Others") := by
  induction ordered_rules with
  | nil =>
      refine ⟨?_, fun _ => rfl⟩
      intro pre folder exts post heq
      cases pre <;> simp at heq
  | cons hd tl ih =>
      obtain ⟨f0, e0⟩ := hd
      constructor
      · intro pre folder exts post heq hmem hpre
        cases pre with
        | nil =>
            simp only [List.nil_append] at heq
            injection heq with h1 h2
            injection h1 with hf he
            subst hf; subst he
            simp [resolve_folder_for_ext, hmem]
        | cons p pre' =>
            simp only [List.cons_append] at heq
            injection heq with h1 h2
            subst h1
            have hnot : ext ∉ e0 := hpre (f0, e0) (List.mem_cons_self _ _)
            simp only [resolve_folder_for_ext, if_neg hnot]
            exact ih.1 pre' folder exts post h2 hmem
              (fun e he => hpre e (List.mem_cons_of_mem _ he))
      · intro hall
        have hnot : ext ∉ e0 := hall (f0, e0) (List.mem_cons_self _ _)
        simp only [resolve_folder_for_ext, if_neg hnot]
        exact ih.2 (fun e he => hall e (List.mem_cons_of_mem _ he))

/-- C1 counterexample: in the rule table built from the custom rule
`Pics -> [jpg]`, the extension `jpg` is present in the default `Images`
entry's extension set, yet the classifier returns `Pics`, not `Images`:
the "for all extensions present in a rule's extension set it returns exactly
that rule's category" clause fails for shadowed entries. -/
theorem resolve_folder_shadowed_counterexample :
    ("Images", ["jpg", "jpeg", "png", "gif", "bmp", "svg", "webp", "heic"]) ∈
        build_rules [("Pics", ["jpg"])]
    ∧ "jpg" ∈ ["jpg", "jpeg", "png", "gif", "bmp", "svg", "webp", "heic"]
    ∧ resolve_folder_for_ext "jpg" (build_rules [("Pics", ["jpg"])]) = "Pics"
    ∧ "Pics" ≠ "Images" := by decide

/-- C1 witness: on the default table, `jpg` (which no earlier entry shadows)
classifies as `Images`, and an unknown extension falls through to
`Others`. -/
theorem resolve_folder_first_match_witness :
    (build_rules [] = [] ++
        ("Images", ["jpg", "jpeg", "png", "gif", "bmp", "svg", "webp", "heic"]) ::
          (build_rules []).tail
      ∧ "jpg" ∈ ["jpg", "jpeg", "png", "gif", "bmp", "svg", "webp", "heic"]
      ∧ (∀ e ∈ ([] : List (String × List String)), "jpg" ∉ e.2)
      ∧ (∀ e ∈ build_rules [], "xyz" ∉ e.2))
    ∧ resolve_folder_for_ext "jpg" (build_rules []) = "Images"
    ∧ resolve_folder_for_ext "xyz" (build_rules []) = "Others" := by
  refine ⟨⟨by decide, by decide, by decide, by decide⟩, ?_, ?_⟩
  · exact (resolve_folder_first_match (build_rules []) "jpg").1 []
      "Images" ["jpg", "jpeg", "png", "gif", "bmp", "svg", "webp", "heic"]
      ((build_rules []).tail) (by decide) (by decide) (by decide)
  · exact (resolve_folder_first_match (build_rules []) "xyz").2 (by decide)

/-! ### C2 : the rule table builder -/

theorem filter_key_eq (l : List (String × List String)) (k : String)
    (v : List String) (hnd : (l.map Prod.fst).Nodup) (hm : (k, v) ∈ l) :
    l.filter (fun e => e.1 == k) = [(k, v)] := by
  induction l with
  | nil => cases hm
  | cons hd tl ih =>
      obtain ⟨k0, v0⟩ := hd
      simp only [List.map_cons, List.nodup_cons] at hnd
      by_cases hk : k0 = k
      · subst hk
        have hv : v0 = v := by
          rcases List.mem_cons.1 hm with h | h
          · exact (Prod.mk.injEq _ _ _ _ ▸ h.symm).2
          · exact absurd (List.mem_map_of_mem Prod.fst h) (by simpa using hnd.1)
        subst hv
        have htl : tl.filter (fun e => e.1 == k0) = [] := by
          rw [List.filter_eq_nil_iff]
          intro a ha
          have : a.1 ≠ k0 := by
            intro hak
            exact hnd.1 (hak ▸ List.mem_map_of_mem Prod.fst ha)
          simpa using this
        simp [List.filter_cons, htl]
      · have hm' : (k, v) ∈ tl := by
          rcases List.mem_cons.1 hm with h | h
          · exact absurd (congrArg Prod.fst h).symm hk
          · exact h
        have := ih hnd.2 hm'
        simp only [List.filter_cons]
        rw [if_neg (by simpa using hk), this]

/-- The four-part conclusion of C2 over a custom mapping `custom`:
the table's prefix is the custom entries in caller order, normalized;
the rest is exactly the default categories whose name is not a custom key;
no two entries share a category name; and a custom rule whose name matches a
default category fully replaces it (its name maps to the normalized custom
extensions only, with no merged entry). -/
def BuildRulesSpec (custom : List (String × List String)) : Prop :=
  ((build_rules custom).take custom.length =
      custom.map (fun kv => (kv.1, kv.2.map normalize_ext)))
  ∧ ((build_rules custom).drop custom.length =
      (DEFAULT_RULES.filter
          (fun kv => !(custom.any (fun c => c.1 == kv.1)))).map
        (fun kv => (kv.1, kv.2.map normalize_ext)))
  ∧ ((build_rules custom).map Prod.fst).Nodup
  ∧ ∀ k v, (k, v) ∈ custom →
      (build_rules custom).filter (fun e => e.1 == k) =
        [(k, v.map normalize_ext)]

/-- C2: for every custom mapping (its keys pairwise distinct, as Python dict
keys are), `build_rules` puts the normalized custom entries first in caller
order, then exactly the non-overridden defaults; no category name repeats,
and an overriding custom rule fully replaces the default's extension list. -/
theorem build_rules_spec (custom : List (String × List String))
    (hkeys : (custom.map Prod.fst).Nodup) : BuildRulesSpec custom := by
  have hlen : (custom.map (fun kv => (kv.1, kv.2.map normalize_ext))).length
      = custom.length := List.length_map _ _
  refine ⟨?_, ?_, ?_, ?_⟩
  · rw [build_rules]
    exact List.take_left' hlen
  · rw [build_rules]
    exact List.drop_left' hlen
  · rw [build_rules, List.map_append, List.map_map, List.map_map]
    have hfst : ∀ l : List (String × List String),
        l.map (Prod.fst ∘ fun kv => (kv.1, kv.2.map normalize_ext)) =
          l.map Prod.fst := fun l => List.map_congr_left (fun a _ => rfl)
    rw [hfst, hfst]
    rw [List.nodup_append]
    refine ⟨hkeys, ?_, ?_⟩
    · exact List.Nodup.sublist
        ((List.filter_sublist DEFAULT_RULES).map Prod.fst) (by decide)
    · intro a ha hb
      rcases List.mem_map.1 hb with ⟨kv, hkv, rfl⟩
      rcases List.mem_filter.1 hkv with ⟨_, hcond⟩
      rcases List.mem_map.1 ha with ⟨c, hc, hca⟩
      have hfalse : custom.any (fun c => c.1 == kv.1) = false := by
        revert hcond; cases custom.any (fun c => c.1 == kv.1) <;> simp
      have := List.any_eq_false.1 hfalse c hc
      simp only [hca] at this
      simp at this
  · intro k v hm
    rw [build_rules, List.filter_append, List.filter_map, List.filter_map]
    have h1 : custom.filter
        ((fun e : String × List String => e.1 == k) ∘
          fun kv => (kv.1, kv.2.map normalize_ext)) =
        custom.filter (fun e => e.1 == k) :=
      List.filter_congr (fun a _ => rfl)
    have h2 : custom.filter (fun e => e.1 == k) = [(k, v)] :=
      filter_key_eq custom k v hkeys hm
    have h3 : (DEFAULT_RULES.filter
          (fun kv => !(custom.any (fun c => c.1 == kv.1)))).filter
        ((fun e : String × List String => e.1 == k) ∘
          fun kv => (kv.1, kv.2.map normalize_ext)) = [] := by
      rw [List.filter_eq_nil_iff]
      intro a ha
      rcases List.mem_filter.1 ha with ⟨_, hcond⟩
      have hfalse : custom.any (fun c => c.1 == a.1) = false := by
        revert hcond; cases custom.any (fun c => c.1 == a.1) <;> simp
      have hne := List.any_eq_false.1 hfalse (k, v) hm
      simp only [Function.comp_apply, beq_iff_eq]
      simp only [beq_iff_eq] at hne
      exact fun hak => hne hak.symm
    rw [h1, h2, h3, List.map_cons, List.map_nil, List.append_nil]

/-- C2 witness: a custom mapping with a fresh category and an override of the
default `Images` category. -/
theorem build_rules_spec_witness :
    (([("Pics", ["JPG"]), ("Images", ["heif"])].map
        (Prod.fst (α := String) (β := List String))).Nodup)
    ∧ BuildRulesSpec [("Pics", ["JPG"]), ("Images", ["heif"])] :=
  ⟨by decide, build_rules_spec _ (by decide)⟩

/-! ### C3 : collision-safe moving -/

theorem safe_move_ok_eq (stem ext : String) (files : List String) (s : Stats) :
    safe_move stem ext true true true files s =
      .ok (chooseName files stem ext, chooseName files stem ext :: files,
        { s with scanned := s.scanned + 1
                 files_moved := s.files_moved + 1 }) :=
  rfl

/-- Conclusion of C3's collision branch: the file lands under the ` (N)`
name for the smallest positive free `N`, the directory gains exactly that
name, and `files_moved` is incremented. -/
def SafeMoveRenames (stem ext : String) (destFiles : List String)
    (stats : Stats) : Prop :=
  ∃ N, 0 < N
    ∧ candName stem ext N ∉ destFiles
    ∧ (∀ m, 0 < m → m < N → candName stem ext m ∈ destFiles)
    ∧ safe_move stem ext true true true destFiles stats =
        .ok (candName stem ext N, candName stem ext N :: destFiles,
          { stats with scanned := stats.scanned + 1
                       files_moved := stats.files_moved + 1 })

/-- C3: in an existing destination directory, a colliding file is moved
under the ` (N)` name with `N` the smallest positive integer whose candidate
is absent, a non-colliding file keeps its name, `files_moved` is incremented
either way, and moving two files of the same name one after the other leaves
both present under distinct names. -/
theorem safe_move_spec (stem ext : String) (destFiles : List String)
    (stats : Stats) :
    ((stem ++ ext) ∈ destFiles → SafeMoveRenames stem ext destFiles stats)
    ∧ ((stem ++ ext) ∉ destFiles →
        safe_move stem ext true true true destFiles stats =
          .ok (stem ++ ext, (stem ++ ext) :: destFiles,
            { stats with scanned := stats.scanned + 1
                         files_moved := stats.files_moved + 1 }))
    ∧ (∀ s2 : Stats, ∃ n1 n2 l2 st1 st2,
        safe_move stem ext true true true destFiles stats =
          .ok (n1, n1 :: destFiles, st1)
        ∧ safe_move stem ext true true true (n1 :: destFiles) s2 =
            .ok (n2, l2, st2)
        ∧ n1 ∈ l2 ∧ n2 ∈ l2 ∧ n1 ≠ n2) := by
  refine ⟨?_, ?_, ?_⟩
  · intro hmem
    refine ⟨freeIdx destFiles stem ext, freeIdx_pos _ _ _,
      candName_freeIdx_notMem _ _ _, freeIdx_min _ _ _, ?_⟩
    rw [safe_move_ok_eq, chooseName, if_pos hmem]
  · intro hmem
    rw [safe_move_ok_eq, chooseName, if_neg hmem]
  · intro s2
    refine ⟨chooseName destFiles stem ext,
      chooseName (chooseName destFiles stem ext :: destFiles) stem ext,
      chooseName (chooseName destFiles stem ext :: destFiles) stem ext ::
        chooseName destFiles stem ext :: destFiles,
      _, _, safe_move_ok_eq _ _ _ _, safe_move_ok_eq _ _ _ _, ?_, ?_, ?_⟩
    · exact List.mem_cons_of_mem _ (List.mem_cons_self _ _)
    · exact List.mem_cons_self _ _
    · intro heq
      exact chooseName_notMem (chooseName destFiles stem ext :: destFiles)
        stem ext (heq ▸ List.mem_cons_self _ _)

/-- C3 witness: moving `a.txt` into a directory already holding `a.txt` and
`a (1).txt`. -/
theorem safe_move_spec_witness :
    ("a" ++ ".txt") ∈ ["a.txt", "a (1).txt"]
    ∧ SafeMoveRenames "a" ".txt" ["a.txt", "a (1).txt"] make_stats :=
  ⟨by decide, (safe_move_spec "a" ".txt" ["a.txt", "a (1).txt"] make_stats).1
    (by decide)⟩

/-! ### C4 : failure propagation in `safe_move` -/

/-- C4 counterexample: when the destination directory is missing and
`mkdir` raises, `safe_move` propagates the exception with the stats — in
particular `errors` — completely untouched, because `ensure_dir` is called
before the `try` block whose handler does `stats["errors"] += 1`. -/
theorem safe_move_mkdir_failure_counterexample :
    safe_move "a" ".txt" false false true ["b.txt"] make_stats =
      .error make_stats
    ∧ make_stats.errors = 0 :=
  ⟨rfl, rfl⟩

/-- C4 (amended): a failure of the move itself increments `errors` by one
and propagates the exception (whether or not the directory had to be
created first); a failure during destination-directory creation propagates
the exception without incrementing `errors`. -/
theorem safe_move_failure_spec (stem ext : String) (destFiles : List String)
    (stats : Stats) :
    (safe_move stem ext true true false destFiles stats =
        .error { stats with scanned := stats.scanned + 1
                            errors := stats.errors + 1 })
    ∧ (safe_move stem ext false true false destFiles stats =
        .error { stats with folders_created := stats.folders_created + 1
                            scanned := stats.scanned + 1
                            errors := stats.errors + 1 })
    ∧ (∀ moveOk : Bool,
        safe_move stem ext false false moveOk destFiles stats = .error stats) := by
  refine ⟨rfl, rfl, fun moveOk => rfl⟩

/-! ### C5 : the move planner's destination paths -/

theorem decStrAux_fuel_irrel :
    ∀ n f1 f2, n ≤ f1 → n ≤ f2 → decStrAux f1 n = decStrAux f2 n := by
  intro n
  induction n using Nat.strong_induction_on with
  | _ n ih =>
    intro f1 f2 h1 h2
    match n, f1, f2 with
    | 0, f1, f2 => rw [decStrAux_zero, decStrAux_zero]
    | n + 1, a + 1, b + 1 =>
      have hdiv : (n + 1) / 10 < n + 1 :=
        Nat.div_lt_self (Nat.succ_pos n) (by norm_num)
      rw [decStrAux, decStrAux, ih _ hdiv a b (by omega) (by omega)]

theorem decStrAux_length_step (n fuel : Nat) (hn : 0 < n) (hf : n ≤ fuel) :
    (decStrAux fuel n).length = (decStrAux (n / 10) (n / 10)).length + 1 := by
  match n, fuel with
  | n + 1, f + 1 =>
      rw [decStrAux, List.length_append,
        decStrAux_fuel_irrel ((n + 1) / 10) f ((n + 1) / 10)
          (by
            have : (n + 1) / 10 < n + 1 :=
              Nat.div_lt_self (Nat.succ_pos n) (by norm_num)
            omega)
          le_rfl]
      rfl

theorem decStr_length_four (y : Nat) (h1 : 1000 ≤ y) (h2 : y ≤ 9999) :
    (decStr y).length = 4 := by
  rw [decStr, if_neg (by omega)]
  show (decStrAux y y).length = 4
  have s1 := decStrAux_length_step y y (by omega) le_rfl
  have s2 := decStrAux_length_step (y / 10) (y / 10) (by omega) le_rfl
  have s3 := decStrAux_length_step (y / 10 / 10) (y / 10 / 10) (by omega) le_rfl
  have s4 := decStrAux_length_step (y / 10 / 10 / 10) (y / 10 / 10 / 10)
    (by omega) le_rfl
  have hz : y / 10 / 10 / 10 / 10 = 0 := by omega
  rw [hz, decStrAux_zero] at s4
  simp only [List.length_nil] at s4
  omega

/-- Conclusion of C5: the three layouts put `target / category / year /
month`, `target / year / month / category` and `target / category`
respectively, with the year rendered as a 4-digit string and the month as
its 3-letter abbreviation, and on a `jpg` file modified in March 2023 the
destinations are `.../Images/2023/Mar`, `.../2023/Mar/Images` and
`.../Images`. -/
def MovePlannerSpec (target : List String) (mt : MTime) (suffix : String)
    (ordered_rules : List (String × List String)) : Prop :=
  (organize_by_type_then_date_dest suffix target mt ordered_rules =
      target ++ [resolve_folder_for_ext (normalize_ext suffix) ordered_rules,
        decStr mt.year, month_name_from_ts mt])
  ∧ (organize_by_date_then_type_dest suffix target mt ordered_rules =
      target ++ [decStr mt.year, month_name_from_ts mt,
        resolve_folder_for_ext (normalize_ext suffix) ordered_rules])
  ∧ (organize_flat_type_dest suffix target ordered_rules =
      target ++ [resolve_folder_for_ext (normalize_ext suffix) ordered_rules])
  ∧ (decStr mt.year).length = 4
  ∧ (month_name_from_ts mt).length = 3
  ∧ (organize_by_type_then_date_dest ".jpg" target ⟨2023, 3⟩ (build_rules []) =
      target ++ ["Images", "2023", "Mar"])
  ∧ (organize_by_date_then_type_dest ".jpg" target ⟨2023, 3⟩ (build_rules []) =
      target ++ ["2023", "Mar", "Images"])
  ∧ (organize_flat_type_dest ".jpg" target (build_rules []) =
      target ++ ["Images"])

/-- C5: destination-path correctness of the move planner for every target
root, rule table and file whose timestamp has a 4-digit year and a real
month. -/
theorem move_planner_spec (target : List String) (mt : MTime)
    (suffix : String) (ordered_rules : List (String × List String))
    (h1 : 1000 ≤ mt.year) (h2 : mt.year ≤ 9999)
    (h3 : 1 ≤ mt.month) (h4 : mt.month ≤ 12) :
    MovePlannerSpec target mt suffix ordered_rules := by
  have hjpg : resolve_folder_for_ext (normalize_ext ".jpg") (build_rules []) =
      "Images" := by decide
  have h2023 : decStr 2023 = "2023" := by decide
  refine ⟨rfl, rfl, rfl, decStr_length_four mt.year h1 h2, ?_, ?_, ?_, ?_⟩
  · have hm := mt.month
    rw [month_name_from_ts]
    interval_cases h : mt.month <;> rfl
  · rw [organize_by_type_then_date_dest, hjpg, h2023]; rfl
  · rw [organize_by_date_then_type_dest, hjpg, h2023]; rfl
  · rw [organize_flat_type_dest, hjpg]

/-- C5 witness: a concrete root and a March 2023 timestamp. -/
theorem move_planner_spec_witness :
    (1000 ≤ (2023 : Nat) ∧ (2023 : Nat) ≤ 9999 ∧ 1 ≤ (3 : Nat) ∧ (3 : Nat) ≤ 12)
    ∧ MovePlannerSpec ["home", "Downloads"] ⟨2023, 3⟩ ".jpg" (build_rules []) :=
  ⟨⟨by decide, by decide, by decide, by decide⟩,
    move_planner_spec _ _ _ _ (by decide) (by decide) (by decide) (by decide)⟩

/-! ### C7 : the empty-directory reaper -/

mutual
theorem reapDir_noFiles :
    ∀ t : Dir, t.noFiles = true →
      (reapDir t).1 = Dir.node [] .nil ∧ (reapDir t).2 = t.countDirs
  | .node fs ds => fun h => by
      have hh : fs.isEmpty = true ∧ ds.noFiles = true := by
        simpa [Dir.noFiles] using h
      have hfs : fs = [] := List.isEmpty_iff.1 hh.1
      have hds := reapDirs_noFiles ds hh.2
      subst hfs
      simp [reapDir, Dir.countDirs, hds.1, hds.2]
theorem reapDirs_noFiles :
    ∀ ds : DirList, ds.noFiles = true →
      (reapDirs ds).1 = DirList.nil ∧ (reapDirs ds).2 = ds.countDirs
  | .nil => fun _ => ⟨rfl, rfl⟩
  | .cons n c rest => fun h => by
      have hh : c.noFiles = true ∧ rest.noFiles = true := by
        simpa [DirList.noFiles] using h
      have hc := reapDir_noFiles c hh.1
      have hr := reapDirs_noFiles rest hh.2
      have hemp : isEmptyDir (reapDir c).1 = true := by
        rw [hc.1]; rfl
      simp [reapDirs, hemp, hc.2, hr.1, hr.2, DirList.countDirs]
      omega
end

/-- C7: on a root whose subtree holds only directories and no files, the
reaper removes every directory strictly under the root — none remain — and
adds exactly the number of removed directories to `folders_deleted`,
because the bottom-up traversal lets a child's removal empty its parent
within the same pass. -/
theorem delete_empty_folders_spec (t : Dir) (stats : Stats)
    (h : t.noFiles = true) :
    (delete_empty_folders t stats).1 = Dir.node [] .nil
    ∧ (delete_empty_folders t stats).2.folders_deleted =
        stats.folders_deleted + t.countDirs
    ∧ (delete_empty_folders t stats).2.files_moved = stats.files_moved := by
  have hr := reapDir_noFiles t h
  refine ⟨?_, ?_, rfl⟩
  · simp [delete_empty_folders, hr.1]
  · simp [delete_empty_folders, hr.2]

/-- C7 witness: a three-deep chain of empty directories under the root is
fully removed and counted. -/
theorem delete_empty_folders_spec_witness :
    (Dir.node [] (.cons "a" (.node []
        (.cons "b" (.node [] (.cons "c" (.node [] .nil) .nil)) .nil))
      .nil)).noFiles = true
    ∧ ((delete_empty_folders (Dir.node [] (.cons "a" (.node []
          (.cons "b" (.node [] (.cons "c" (.node [] .nil) .nil)) .nil))
        .nil)) make_stats).1 = Dir.node [] .nil
      ∧ (delete_empty_folders (Dir.node [] (.cons "a" (.node []
            (.cons "b" (.node [] (.cons "c" (.node [] .nil) .nil)) .nil))
          .nil)) make_stats).2.folders_deleted =
          make_stats.folders_deleted + (Dir.node [] (.cons "a" (.node []
            (.cons "b" (.node [] (.cons "c" (.node [] .nil) .nil)) .nil))
          .nil)).countDirs
      ∧ (delete_empty_folders (Dir.node [] (.cons "a" (.node []
            (.cons "b" (.node [] (.cons "c" (.node [] .nil) .nil)) .nil))
          .nil)) make_stats).2.files_moved = make_stats.files_moved) :=
  ⟨by rfl, delete_empty_folders_spec _ make_stats (by rfl)⟩

/-! ### C6 : running the non-recursive batch organizer twice -/

theorem mkdirp_files : ∀ (t : Dir) (p : List String),
    ((mkdirp t p).1).files = t.files
  | .node _ _, [] => rfl
  | .node fs ds, n :: rest => by
      cases h : findChild ds n <;> simp [mkdirp, h, Dir.files]

theorem ensure_dir_fs_files (t : Dir) (p : List String) (s : Stats) :
    ((ensure_dir_fs t p s).1).files = t.files := by
  rw [ensure_dir_fs]
  by_cases h : dirExistsAt t p = true
  · rw [if_pos h]
  · rw [if_neg h]
    exact mkdirp_files t p

theorem ensure_dir_fs_files_moved (t : Dir) (p : List String) (s : Stats) :
    ((ensure_dir_fs t p s).2).files_moved = s.files_moved := by
  rw [ensure_dir_fs]
  by_cases h : dirExistsAt t p = true
  · rw [if_pos h]
  · rw [if_neg h]

theorem addFileAt_files : ∀ (t : Dir) (p : List String) (f : FileEnt),
    p ≠ [] → (addFileAt t p f).files = t.files
  | .node fs ds, n :: rest, f, _ => by
      cases h : findChild ds n <;> simp [addFileAt, h, Dir.files]

theorem destRel_ne_nil (method : Method) (f : FileEnt)
    (ordered_rules : List (String × List String)) :
    destRel method f ordered_rules ≠ [] := by
  cases method <;>
    simp [destRel, organize_by_type_then_date_dest,
      organize_by_date_then_type_dest, organize_flat_type_dest]

theorem safe_move_fs_files (t : Dir) (dest : List String) (f : FileEnt)
    (s : Stats) (h : dest ≠ []) :
    ((safe_move_fs t dest f s).1).files = t.files := by
  rw [safe_move_fs]
  rw [addFileAt_files _ _ _ h, ensure_dir_fs_files]

theorem safe_move_fs_files_moved (t : Dir) (dest : List String) (f : FileEnt)
    (s : Stats) :
    ((safe_move_fs t dest f s).2).files_moved = s.files_moved + 1 := by
  rw [safe_move_fs]
  show ((ensure_dir_fs t dest s).2).files_moved + 1 = s.files_moved + 1
  rw [ensure_dir_fs_files_moved]

theorem processFiles_root_files
    (ordered_rules : List (String × List String)) (method : Method) :
    ∀ (fs : List FileEnt) (t : Dir) (s : Stats),
      ((processFiles ordered_rules method fs t s).1).files = t.files
  | [], t, s => rfl
  | f :: fs, t, s => by
      rw [processFiles]
      rw [processFiles_root_files ordered_rules method fs]
      exact safe_move_fs_files t _ f s (destRel_ne_nil method f ordered_rules)

theorem processFiles_moved
    (ordered_rules : List (String × List String)) (method : Method) :
    ∀ (fs : List FileEnt) (t : Dir) (s : Stats),
      ((processFiles ordered_rules method fs t s).2).files_moved =
        s.files_moved + fs.length
  | [], t, s => rfl
  | f :: fs, t, s => by
      rw [processFiles]
      rw [processFiles_moved ordered_rules method fs]
      rw [safe_move_fs_files_moved]
      simp [List.length_cons]
      omega

theorem reapDir_files (t : Dir) : ((reapDir t).1).files = t.files := by
  cases t with
  | node fs ds => rfl

theorem delete_empty_folders_files (t : Dir) (s : Stats) :
    ((delete_empty_folders t s).1).files = t.files := reapDir_files t

theorem delete_empty_folders_moved (t : Dir) (s : Stats) :
    ((delete_empty_folders t s).2).files_moved = s.files_moved := rfl

/-- C6: one non-recursive run moves exactly the files found at the root's
immediate level (each once), and a second non-recursive run over the
resulting tree performs no moves at all — the first run moved every root
file into a category subtree, and with recursion disabled the walk never
descends into subtrees. -/
theorem deep_scan_idempotent (t : Dir) (method : Method) (de : Bool)
    (cfg_rules : List (String × List String)) (s1 s2 : Stats) :
    ((deep_scan_and_organize t method de cfg_rules s1).2.files_moved =
        s1.files_moved + t.files.length)
    ∧ ((deep_scan_and_organize t method de cfg_rules s1).1).files = []
    ∧ ((deep_scan_and_organize
          (deep_scan_and_organize t method de cfg_rules s1).1
          method de cfg_rules s2).2.files_moved = s2.files_moved) := by
  cases t with
  | node fs ds =>
      have hrun : ∀ (fs0 : List FileEnt) (ds0 : DirList) (s0 : Stats),
          ((deep_scan_and_organize (.node fs0 ds0) method de cfg_rules
              s0).2.files_moved = s0.files_moved + fs0.length)
          ∧ ((deep_scan_and_organize (.node fs0 ds0) method de cfg_rules
              s0).1).files = [] := by
        intro fs0 ds0 s0
        rw [deep_scan_and_organize]
        cases de
        · rw [if_neg (by simp : ¬false = true)]
          constructor
          · rw [processFiles_moved]
          · rw [processFiles_root_files]; rfl
        · rw [if_pos rfl]
          constructor
          · rw [delete_empty_folders_moved, processFiles_moved]
          · rw [delete_empty_folders_files, processFiles_root_files]; rfl
      refine ⟨(hrun fs ds s1).1, (hrun fs ds s1).2, ?_⟩
      have h2 := (hrun fs ds s1).2
      cases hh : (deep_scan_and_organize (.node fs ds) method de cfg_rules s1).1
        with
      | node fs1 ds1 =>
          have : fs1 = [] := by
            have := h2
            rw [hh] at this
            exact this
          subst this
          have := (hrun [] ds1 s2).1
          simpa using this

/-! ### C8 : stats counters across a run -/

theorem statsLE_refl (s : Stats) : statsLE s s :=
  ⟨le_rfl, le_rfl, le_rfl, le_rfl, le_rfl⟩

theorem statsLE_trans {a b c : Stats} (h1 : statsLE a b) (h2 : statsLE b c) :
    statsLE a c := by
  obtain ⟨x1, x2, x3, x4, x5⟩ := h1
  obtain ⟨y1, y2, y3, y4, y5⟩ := h2
  exact ⟨x1.trans y1, x2.trans y2, x3.trans y3, x4.trans y4, x5.trans y5⟩

theorem applyOp_mono (op : EngineOp) (s : Stats) : statsLE s (applyOp op s) := by
  cases op with
  | move stem ext de mk mv fs =>
      cases de <;> cases mk <;> cases mv <;>
        simp [applyOp, safe_move, ensure_dir, statsLE]
  | ensure de mk =>
      cases de <;> cases mk <;> simp [applyOp, ensure_dir, statsLE]
  | reap t =>
      simp [applyOp, delete_empty_folders, statsLE]

theorem applyOp_inv (op : EngineOp) (s : Stats)
    (h : s.errors + s.files_moved ≤ s.scanned) :
    (applyOp op s).errors + (applyOp op s).files_moved ≤
      (applyOp op s).scanned := by
  cases op with
  | move stem ext de mk mv fs =>
      cases de <;> cases mk <;> cases mv <;>
        simp [applyOp, safe_move, ensure_dir] <;> omega
  | ensure de mk =>
      cases de <;> cases mk <;> simp [applyOp, ensure_dir] <;> omega
  | reap t =>
      simp [applyOp, delete_empty_folders]
      omega

theorem runOps_mono : ∀ (ops : List EngineOp) (s : Stats),
    statsLE s (runOps ops s)
  | [], s => statsLE_refl s
  | op :: ops, s =>
      statsLE_trans (applyOp_mono op s) (runOps_mono ops (applyOp op s))

theorem runOps_inv : ∀ (ops : List EngineOp) (s : Stats),
    s.errors + s.files_moved ≤ s.scanned →
    (runOps ops s).errors + (runOps ops s).files_moved ≤ (runOps ops s).scanned
  | [], _, h => h
  | op :: ops, s, h => runOps_inv ops (applyOp op s) (applyOp_inv op s h)

/-- C8: starting from `make_stats`, every counter stays non-negative (they
live in `Nat`), no counter ever decreases — neither over the whole run nor
across any further single operation — and after every operation sequence
`files_moved <= scanned` and `errors + files_moved <= scanned` hold. -/
theorem stats_invariant_spec (ops : List EngineOp) :
    (0 ≤ (runOps ops make_stats).scanned
      ∧ 0 ≤ (runOps ops make_stats).folders_created
      ∧ 0 ≤ (runOps ops make_stats).files_moved
      ∧ 0 ≤ (runOps ops make_stats).folders_deleted
      ∧ 0 ≤ (runOps ops make_stats).errors)
    ∧ statsLE make_stats (runOps ops make_stats)
    ∧ (∀ op : EngineOp,
        statsLE (runOps ops make_stats) (applyOp op (runOps ops make_stats)))
    ∧ (runOps ops make_stats).files_moved ≤ (runOps ops make_stats).scanned
    ∧ (runOps ops make_stats).errors + (runOps ops make_stats).files_moved ≤
        (runOps ops make_stats).scanned := by
  have hinv := runOps_inv ops make_stats (by rfl)
  refine ⟨⟨Nat.zero_le _, Nat.zero_le _, Nat.zero_le _, Nat.zero_le _,
    Nat.zero_le _⟩, runOps_mono ops make_stats,
    fun op => applyOp_mono op _, ?_, hinv⟩
  omega

/-! ### C9 : `folders_created` counts destination paths, not directories -/

theorem mkdirp_count_pos : ∀ (t : Dir) (p : List String),
    dirExistsAt t p = false → 1 ≤ (mkdirp t p).2
  | t, [], h => by simp [dirExistsAt] at h
  | .node fs ds, n :: rest, h => by
      cases hc : findChild ds n with
      | some c =>
          rw [dirExistsAt, Dir.dirs, hc] at h
          have := mkdirp_count_pos c rest h
          simp [mkdirp, hc]
          omega
      | none =>
          simp [mkdirp, hc]

/-- C9: when the destination path is missing, `ensure_dir` adds exactly one
to `folders_created` even though `mkdir(parents=True)` may materialize
several directories (at least one, and e.g. two for path `a/b` under an
empty root) — so `folders_created` counts created destination paths, which
can be strictly less than the directories actually created. -/
theorem ensure_dir_fs_spec (t : Dir) (p : List String) (s : Stats)
    (h : dirExistsAt t p = false) :
    ((ensure_dir_fs t p s).2.folders_created = s.folders_created + 1)
    ∧ 1 ≤ (mkdirp t p).2
    ∧ (dirExistsAt (Dir.node [] .nil) ["a", "b"] = false
        ∧ (ensure_dir_fs (Dir.node [] .nil) ["a", "b"]
            make_stats).2.folders_created = 1
        ∧ (mkdirp (Dir.node [] .nil) ["a", "b"]).2 = 2) := by
  refine ⟨?_, mkdirp_count_pos t p h, rfl, rfl, rfl⟩
  rw [ensure_dir_fs, if_neg (by simp [h])]

/-- C9 witness: creating `x/y/z` under an empty root counts one destination
path. -/
theorem ensure_dir_fs_spec_witness :
    dirExistsAt (Dir.node [] .nil) ["x", "y", "z"] = false
    ∧ (((ensure_dir_fs (Dir.node [] .nil) ["x", "y", "z"]
          make_stats).2.folders_created = make_stats.folders_created + 1)
      ∧ 1 ≤ (mkdirp (Dir.node [] .nil) ["x", "y", "z"]).2
      ∧ (dirExistsAt (Dir.node [] .nil) ["a", "b"] = false
          ∧ (ensure_dir_fs (Dir.node [] .nil) ["a", "b"]
              make_stats).2.folders_created = 1
          ∧ (mkdirp (Dir.node [] .nil) ["a", "b"]).2 = 2)) :=
  ⟨rfl, ensure_dir_fs_spec (Dir.node [] .nil) ["x", "y", "z"] make_stats rfl⟩

/-! ### C10 : files without an extension -/

/-- C10: a file whose `pathlib` suffix is empty normalizes to the empty
extension; provided no rule lists the empty string, it classifies as
`Others`, and all three layouts place it under the `Others` folder. -/
theorem no_extension_goes_to_others
    (ordered_rules : List (String × List String)) (target : List String)
    (mt : MTime) (name : String)
    (hsuf : pySuffix name = "")
    (hrules : ∀ e ∈ ordered_rules, "" ∉ e.2) :
    (normalize_ext (pySuffix name) = ""
      ∧ resolve_folder_for_ext (normalize_ext (pySuffix name)) ordered_rules =
          "Others")
    ∧ organize_by_type_then_date_dest (pySuffix name) target mt ordered_rules =
        target ++ ["Others", decStr mt.year, month_name_from_ts mt]
    ∧ organize_by_date_then_type_dest (pySuffix name) target mt ordered_rules =
        target ++ [decStr mt.year, month_name_from_ts mt, "Others"]
    ∧ organize_flat_type_dest (pySuffix name) target ordered_rules =
        target ++ ["Others"] := by
  rw [hsuf]
  have hne : normalize_ext "" = "" := rfl
  have hres : resolve_folder_for_ext (normalize_ext "") ordered_rules =
      "Others" := by
    rw [hne]
    exact (resolve_folder_first_match ordered_rules "").2 hrules
  refine ⟨⟨hne, hres⟩, ?_, ?_, ?_⟩
  · rw [organize_by_type_then_date_dest, hres]
  · rw [organize_by_date_then_type_dest, hres]
  · rw [organize_flat_type_dest, hres]

/-- C10 witness: `README` (no dot, empty suffix) under the default rule
table, which lists no empty extension. -/
theorem no_extension_goes_to_others_witness :
    (pySuffix "README" = "" ∧ ∀ e ∈ build_rules [], "" ∉ e.2)
    ∧ ((normalize_ext (pySuffix "README") = ""
        ∧ resolve_folder_for_ext (normalize_ext (pySuffix "README"))
            (build_rules []) = "Others")
      ∧ organize_by_type_then_date_dest (pySuffix "README") ["root"]
          ⟨2023, 3⟩ (build_rules []) =
          ["root"] ++ ["Others", decStr 2023, month_name_from_ts ⟨2023, 3⟩]
      ∧ organize_by_date_then_type_dest (pySuffix "README") ["root"]
          ⟨2023, 3⟩ (build_rules []) =
          ["root"] ++ [decStr 2023, month_name_from_ts ⟨2023, 3⟩, "Others"]
      ∧ organize_flat_type_dest (pySuffix "README") ["root"]
          (build_rules []) = ["root"] ++ ["Others"]) :=
  ⟨⟨by decide, by decide⟩,
    no_extension_goes_to_others (build_rules []) ["root"] ⟨2023, 3⟩ "README"
      (by decide) (by decide)⟩
